import Mathlib

/-!
Verification development for the `subxt-signer` ECDSA keypair module
(`signer/src/ecdsa.rs`).

The module is shallowly embedded: byte strings are `List Nat`, fallible
operations return `Except Error _`. External cryptographic primitives
(the `secp256k1` crate, `blake2_256` from `sp_crypto_hashing`, and the
`bip39` seed stretching) are not part of this repository, so they appear
as fields of an abstract `Primitives` record over which the theorems
quantify; structural facts about the module (control flow, byte layout,
error propagation) are proved for every instantiation of the record.
The one external fact modelled concretely is secp256k1 secret-scalar
validity (non-zero and below the curve group order), because several
claims are about exactly that condition.
-/

namespace SubxtSigner

/-- Byte strings; each entry is intended to be a byte value below 256. -/
abbrev Bytes := List Nat

/-- The order of the secp256k1 group, the bound for valid secret scalars. -/
def ORDER : Nat := 0xFFFFFFFFFFFFFFFFFFFFFFFFFFFFFFFEBAAEDCE6AF48A03BBFD25E8CD0364141

/-- Big-endian interpretation of a byte string as a natural number, as the
secp256k1 library reads 32-byte secret keys. -/
def toNatBE (b : Bytes) : Nat := b.foldl (fun a x => a * 256 + x) 0

/-- Validity of a 32-byte secret scalar, mirroring the check done by
`secp256k1::SecretKey::from_slice`: 32 bytes long, non-zero, and strictly
below the group order. -/
def isValidScalar (b : Bytes) : Bool :=
  decide (b.length = 32) && decide (0 < toNatBE b) && decide (toNatBE b < ORDER)

/-- The error enum of `ecdsa.rs` (`Error`). The `Phrase` and `Hex` variants
carry an inner error in Rust; the payload plays no role in any claim so it
is dropped here. -/
inductive Error where
  | InvalidSeed : Error
  | SoftJunction : Error
  | Phrase : Error
  | Hex : Error
deriving DecidableEq, Repr

/-- Modelled from the spec: `DeriveJunction` lives in `crate::crypto`, which
is not under `src/`. Per spec section 3 it is a tagged variant `Hard(32-byte
payload)` or `Soft(32-byte payload)`. -/
inductive DeriveJunction where
  | soft (payload : Bytes) : DeriveJunction
  | hard (payload : Bytes) : DeriveJunction
deriving DecidableEq, Repr

/-- Modelled from the spec: `SecretUri` lives in `crate::crypto`, which is
not under `src/`. Per spec section 3 it is a phrase, an ordered junction
list, and an optional password. -/
structure SecretUri where
  phrase : String
  junctions : List DeriveJunction
  password : Option String

/-- The external cryptographic primitives used by `ecdsa.rs` but implemented
outside this repository: `secp256k1` curve operations, `blake2_256`, and the
bip39 mnemonic-to-entropy and entropy-to-seed functions. Each is a pure
function, matching the deterministic call sites in the source (in particular
`sign_ecdsa_recoverable` is called with no randomness input). -/
structure Primitives where
  blake2_256 : Bytes → Bytes
  signRecoverable : Bytes → Bytes → Bytes × Nat
  sigFromCompactOk : Bytes → Bool
  pubFromSliceOk : Bytes → Bool
  verifyEcdsa : Bytes → Bytes → Bytes → Bool
  serializePub : Bytes → Bytes
  mnemonicEntropy : String → Option Bytes
  seedFromEntropy : Bytes → String → Option Bytes

/-- The `Keypair` of `ecdsa.rs`, wrapping a `secp256k1::Keypair`. The wrapped
library type can only hold a valid secret scalar, so validity is carried as
a field. -/
structure Keypair where
  secret : Bytes
  valid : isValidScalar secret = true

instance : DecidableEq Keypair := fun a b =>
  match a, b with
  | ⟨s1, _⟩, ⟨s2, _⟩ =>
    if h : s1 = s2 then isTrue (by subst h; rfl)
    else isFalse (by intro he; cases he; exact h rfl)

/-- Source `Keypair::secret_key`: expose the raw 32 secret bytes. -/
def Keypair.secret_key (k : Keypair) : Bytes := k.secret

/-- Source `Keypair::public_key`: serialize the compressed public point of
the wrapped keypair (33 bytes via the secp256k1 primitive). -/
def public_key (P : Primitives) (k : Keypair) : Bytes := P.serializePub k.secret

/-- Source `Keypair::from_secret_key`: `SecretKey::from_slice` fails with
`InvalidSeed` exactly when the bytes are not a valid scalar. -/
def from_secret_key (b : Bytes) : Except Error Keypair :=
  if h : isValidScalar b = true then .ok ⟨b, h⟩ else .error .InvalidSeed

/-- Little-endian byte rendering of `n` in `len` bytes (SCALE helper). -/
def leBytes (n len : Nat) : Bytes := (List.range len).map fun i => n / 256 ^ i % 256

/-- Number of bytes in the minimal big-endian rendering of `n`. -/
def byteLenOf (n : Nat) : Nat := if n = 0 then 1 else Nat.log 256 n + 1

/-- SCALE compact encoding of a natural number (parity-scale-codec
`Compact<u32>`-and-beyond layout: two-bit mode tag in the low bits). -/
def compactEncode (n : Nat) : Bytes :=
  if n < 64 then [n * 4]
  else if n < 16384 then leBytes (n * 4 + 1) 2
  else if n < 1073741824 then leBytes (n * 4 + 2) 4
  else ((byteLenOf n - 4) * 4 + 3) :: leBytes n (byteLenOf n)

/-- UTF-8 bytes of an ASCII string (each char is one byte; the only string
ever encoded here, the HDKD tag, is ASCII). -/
def asciiBytes (s : String) : Bytes := s.toList.map Char.toNat

/-- SCALE encoding of a string slice: compact length prefix then the bytes. -/
def scaleEncodeStr (s : String) : Bytes := compactEncode (asciiBytes s).length ++ asciiBytes s

/-- SCALE encoding of the tuple `("Secp256k1HDKD", acc, payload)` hashed on
each hard junction in `Keypair::derive`: each component encoded in order;
fixed-size byte arrays encode as their raw bytes. -/
def hdkdEncoded (acc payload : Bytes) : Bytes :=
  scaleEncodeStr "Secp256k1HDKD" ++ acc ++ payload

/-- The junction loop of `Keypair::derive`: fold the accumulator through the
junction list left to right; a `Soft` junction aborts immediately with
`SoftJunction`, a `Hard` junction replaces the accumulator with
`blake2_256` of the SCALE-encoded tagged tuple. -/
def deriveAcc (P : Primitives) : Bytes → List DeriveJunction → Except Error Bytes
  | acc, [] => .ok acc
  | _, .soft _ :: _ => .error .SoftJunction
  | acc, .hard jb :: rest => deriveAcc P (P.blake2_256 (hdkdEncoded acc jb)) rest

/-- Source `Keypair::derive`: run the junction loop on this key's secret
bytes, then rebuild a keypair from the final accumulator. -/
def derive (P : Primitives) (k : Keypair) (js : List DeriveJunction) : Except Error Keypair :=
  match deriveAcc P k.secret js with
  | .ok acc => from_secret_key acc
  | .error e => .error e

/-- Source `internal::sign`: 64 compact signature bytes followed by the
recovery id byte (`i32::from(recid) & 0xFF`). -/
def internalSign (P : Primitives) (secret digest : Bytes) : Bytes :=
  (P.signRecoverable secret digest).1 ++ [(P.signRecoverable secret digest).2 % 256]

/-- Source `Keypair::sign_prehashed`: sign a 32-byte digest directly. -/
def sign_prehashed (P : Primitives) (k : Keypair) (digest : Bytes) : Bytes :=
  internalSign P k.secret digest

/-- Source `Keypair::sign`: blake2_256-hash the message, then sign the
digest. -/
def sign (P : Primitives) (k : Keypair) (message : Bytes) : Bytes :=
  sign_prehashed P k (P.blake2_256 message)

/-- Source `internal::verify`: parse the first 64 signature bytes as a
compact signature and the public-key bytes as a point; `false` if either
parse fails, else defer to the curve verification. -/
def internalVerify (P : Primitives) (sig digest pub : Bytes) : Bool :=
  if P.sigFromCompactOk (sig.take 64) then
    if P.pubFromSliceOk pub then P.verifyEcdsa (sig.take 64) digest pub
    else false
  else false

/-- Source top-level `verify`: recompute the blake2_256 digest of the
message, then check via `internal::verify`. -/
def verify (P : Primitives) (sig message pub : Bytes) : Bool :=
  internalVerify P sig (P.blake2_256 message) pub

/-- Value of a hex digit character, mirroring the `hex` crate. -/
def hexDigit (c : Char) : Option Nat :=
  let n := c.toNat
  if 48 ≤ n ∧ n ≤ 57 then some (n - 48)
  else if 97 ≤ n ∧ n ≤ 102 then some (n - 87)
  else if 65 ≤ n ∧ n ≤ 70 then some (n - 55)
  else none

/-- Decode a hex character string two characters per byte; `none` on an odd
length or a non-hex character. -/
def hexPairs : List Char → Option Bytes
  | [] => some []
  | [_] => none
  | a :: b :: rest =>
    match hexDigit a, hexDigit b, hexPairs rest with
    | some ha, some hb, some r => some ((ha * 16 + hb) :: r)
    | _, _, _ => none

/-- Hex decoding as used in `from_uri`: `<[u8; 32]>::from_hex` demands
exactly 64 hex characters and yields 32 bytes, otherwise a hex error. -/
def fromHex32 (cs : List Char) : Except Error Bytes :=
  if cs.length = 64 then
    match hexPairs cs with
    | some bs => .ok bs
    | none => .error .Hex
  else .error .Hex

/-- The `strip_prefix("0x")` test of `from_uri` on the phrase. -/
def strip0x (s : String) : Option (List Char) :=
  match s.toList with
  | c0 :: c1 :: rest => if c0 = '0' ∧ c1 = 'x' then some rest else none
  | _ => none

/-- Source `Keypair::from_phrase` composed with the `bip39` parse done by
`from_uri`: parse the mnemonic to entropy, stretch entropy and password to
a 64-byte seed, and build the keypair from the low 32 bytes. -/
def from_phrase (P : Primitives) (phrase : String) (password : Option String) :
    Except Error Keypair :=
  match P.mnemonicEntropy phrase with
  | none => .error .Phrase
  | some entropy =>
    match P.seedFromEntropy entropy (password.getD "") with
    | none => .error .InvalidSeed
    | some bigSeed => from_secret_key (bigSeed.take 32)

/-- The root-key step of `from_uri` (the `key` binding in the source): a
phrase starting with `0x` is hex-decoded into a seed, ignoring the
password; otherwise the phrase is treated as a mnemonic with the password
folded into seed stretching. -/
def rootKey (P : Primitives) (uri : SecretUri) : Except Error Keypair :=
  match strip0x uri.phrase with
  | some hexChars =>
    match fromHex32 hexChars with
    | .ok seed => from_secret_key seed
    | .error e => .error e
  | none => from_phrase P uri.phrase uri.password

/-- Source `Keypair::from_uri`: resolve the root key, then apply the
junctions with `derive`. -/
def from_uri (P : Primitives) (uri : SecretUri) : Except Error Keypair :=
  match rootKey P uri with
  | .ok k => derive P k uri.junctions
  | .error e => .error e

/-- The contract of the external secp256k1 primitives that the crate's own
documentation promises: recoverable signing of a digest under a valid
secret yields a 64-byte compact signature that parses back, the serialized
public key parses back, and verification of a freshly produced signature
against the same digest and the matching public key succeeds. -/
def SecpRoundtrip (P : Primitives) : Prop :=
  ∀ s d, isValidScalar s = true →
    (P.signRecoverable s d).1.length = 64 ∧
    P.sigFromCompactOk (P.signRecoverable s d).1 = true ∧
    P.pubFromSliceOk (P.serializePub s) = true ∧
    P.verifyEcdsa (P.signRecoverable s d).1 d (P.serializePub s) = true

/-! Helper lemmas about the junction loop, shared by several theorems. -/

/-- A junction list containing a soft junction makes the loop abort with
`SoftJunction`, whatever the accumulator. -/
theorem deriveAcc_of_soft_mem (P : Primitives) :
    ∀ (js : List DeriveJunction), (∃ p, DeriveJunction.soft p ∈ js) →
      ∀ acc, deriveAcc P acc js = .error .SoftJunction := by
  intro js
  induction js with
  | nil =>
    rintro ⟨p, hp⟩
    cases hp
  | cons j rest ih =>
    rintro ⟨p, hp⟩ acc
    cases j with
    | soft q => rfl
    | hard q =>
      rcases List.mem_cons.mp hp with h | h
      · simp at h
      · exact ih ⟨p, h⟩ _

/-- On an all-hard junction list the loop is exactly a left fold of the
tagged blake2_256 step. -/
theorem deriveAcc_map_hard (P : Primitives) (ps : List Bytes) :
    ∀ acc, deriveAcc P acc (ps.map DeriveJunction.hard)
      = .ok (ps.foldl (fun a p => P.blake2_256 (hdkdEncoded a p)) acc) := by
  induction ps with
  | nil => intro acc; rfl
  | cons p rest ih =>
    intro acc
    simpa using ih (P.blake2_256 (hdkdEncoded acc p))

/-! Witness material: a concrete valid keypair and concrete instantiations
of the external primitives. -/

/-- The 32-byte big-endian encoding of 1, a valid secp256k1 scalar. -/
def oneBytes : Bytes := List.replicate 31 0 ++ [1]

/-- A concrete keypair holding the scalar 1. -/
def kOne : Keypair := ⟨oneBytes, by decide⟩

/-- A concrete instantiation of the external primitives in which signing
concatenates secret and digest (truncated to 64 bytes), the public key is
a `2` byte followed by the secret, parsing always succeeds, and
verification recomputes the expected concatenation. It satisfies
`SecpRoundtrip`. -/
def exP : Primitives :=
  ⟨fun _ => List.replicate 32 1,
   fun s d => ((s ++ d ++ List.replicate 64 0).take 64, 0),
   fun _ => true,
   fun _ => true,
   fun sg d pub => decide (sg = (pub.drop 1 ++ d ++ List.replicate 64 0).take 64),
   fun s => 2 :: s,
   fun _ => none,
   fun _ _ => none⟩

/-- Like `exP` but blake2_256 returns all zeroes, an invalid scalar. -/
def zeroP : Primitives :=
  ⟨fun _ => List.replicate 32 0,
   fun s d => ((s ++ d ++ List.replicate 64 0).take 64, 0),
   fun _ => true,
   fun _ => true,
   fun sg d pub => decide (sg = (pub.drop 1 ++ d ++ List.replicate 64 0).take 64),
   fun s => 2 :: s,
   fun _ => none,
   fun _ _ => none⟩

/-- Like `exP` but compact-signature parsing always fails. -/
def noParseP : Primitives :=
  ⟨fun _ => List.replicate 32 1,
   fun s d => ((s ++ d ++ List.replicate 64 0).take 64, 0),
   fun _ => false,
   fun _ => true,
   fun sg d pub => decide (sg = (pub.drop 1 ++ d ++ List.replicate 64 0).take 64),
   fun s => 2 :: s,
   fun _ => none,
   fun _ _ => none⟩

/-! The claims. -/

/-- Claim C7: deriving over the empty junction list succeeds and returns a
keypair equal to the original (same secret, hence same public key):
applying zero junctions is a no-op, not an error. -/
theorem derive_empty_is_noop (P : Primitives) (k : Keypair) :
    derive P k [] = .ok k := by
  unfold derive
  simp only [deriveAcc]
  unfold from_secret_key
  rw [dif_pos k.valid]

/-- Claim C1: a soft junction is never silently hardened. For every keypair,
`derive` on a junction list containing a soft junction returns
`Err(SoftJunction)`; and `from_uri` on a `SecretUri` whose junctions include
a soft junction, whenever its root-key resolution succeeds, fails with the
same error. -/
theorem soft_junction_never_hardened (P : Primitives) (k : Keypair) (uri : SecretUri)
    (hsoft : ∃ p, DeriveJunction.soft p ∈ uri.junctions)
    (hroot : ∃ k0, rootKey P uri = .ok k0) :
    derive P k uri.junctions = .error .SoftJunction ∧
    from_uri P uri = .error .SoftJunction := by
  have hall : ∀ k1 : Keypair, derive P k1 uri.junctions = .error .SoftJunction := by
    intro k1
    unfold derive
    rw [deriveAcc_of_soft_mem P uri.junctions hsoft]
  refine ⟨hall k, ?_⟩
  obtain ⟨k0, hk0⟩ := hroot
  unfold from_uri
  rw [hk0]
  exact hall k0

/-- Witness for C1 at a concrete hex-phrase URI with one soft junction. -/
theorem soft_junction_never_hardened_witness :
    derive exP kOne
        (SecretUri.mk "0x0000000000000000000000000000000000000000000000000000000000000001"
          [DeriveJunction.soft (List.replicate 32 0)] none).junctions
      = .error .SoftJunction ∧
    from_uri exP
        (SecretUri.mk "0x0000000000000000000000000000000000000000000000000000000000000001"
          [DeriveJunction.soft (List.replicate 32 0)] none)
      = .error .SoftJunction :=
  soft_junction_never_hardened exP kOne
    (SecretUri.mk "0x0000000000000000000000000000000000000000000000000000000000000001"
      [DeriveJunction.soft (List.replicate 32 0)] none)
    ⟨List.replicate 32 0, by simp⟩
    ⟨kOne, by rfl⟩

/-- Claim C2: on an all-hard junction list, `derive` folds the secret left
to right through `blake2_256` of the SCALE-encoded tuple, and the hash
input on each step is the 1-byte SCALE compact length prefix (52, encoding
length 13) followed by exactly the ASCII bytes of "Secp256k1HDKD", then the
accumulator, then the junction payload. -/
theorem derive_hard_is_blake_fold (P : Primitives) (k : Keypair) (ps : List Bytes) :
    (derive P k (ps.map DeriveJunction.hard)
      = from_secret_key (ps.foldl (fun a p => P.blake2_256 (hdkdEncoded a p)) k.secret_key)) ∧
    (∀ a p, hdkdEncoded a p
      = 52 :: ([83, 101, 99, 112, 50, 53, 54, 107, 49, 72, 68, 75, 68] ++ (a ++ p))) ∧
    (asciiBytes "Secp256k1HDKD"
      = [83, 101, 99, 112, 50, 53, 54, 107, 49, 72, 68, 75, 68]) := by
  refine ⟨?_, ?_, by decide⟩
  · unfold derive
    rw [deriveAcc_map_hard]
    rfl
  · intro a p
    show scaleEncodeStr "Secp256k1HDKD" ++ a ++ p = _
    rw [show scaleEncodeStr "Secp256k1HDKD"
        = [52, 83, 101, 99, 112, 50, 53, 54, 107, 49, 72, 68, 75, 68] from by decide]
    simp

/-- Claim C10: even an all-hard derivation can end in `InvalidSeed`: the
folded blake2_256 bytes go through `from_secret_key`, so when they are not
a valid scalar the derivation fails with `InvalidSeed`. -/
theorem derive_hard_invalid_seed (P : Primitives) (k : Keypair) (ps : List Bytes)
    (h : isValidScalar
        (ps.foldl (fun a p => P.blake2_256 (hdkdEncoded a p)) k.secret_key) = false) :
    derive P k (ps.map DeriveJunction.hard) = .error .InvalidSeed := by
  have h2 : isValidScalar
      (ps.foldl (fun a p => P.blake2_256 (hdkdEncoded a p)) k.secret) = false := h
  unfold derive
  rw [deriveAcc_map_hard]
  show from_secret_key (ps.foldl (fun a p => P.blake2_256 (hdkdEncoded a p)) k.secret) = _
  unfold from_secret_key
  rw [dif_neg]
  simp [h2]

/-- Witness for C10: with a blake2_256 model returning all zeroes, one hard
junction drives the secret to an invalid scalar and `derive` reports
`InvalidSeed`. -/
theorem derive_hard_invalid_seed_witness :
    derive zeroP kOne (List.map DeriveJunction.hard [List.replicate 32 0])
      = .error .InvalidSeed :=
  derive_hard_invalid_seed zeroP kOne [List.replicate 32 0] (by decide)

/-- Claim C6: `from_secret_key` fails with `InvalidSeed` exactly when the
32 bytes encode zero or a value at least the secp256k1 group order, and on
success the keypair's `secret_key` equals the input bytes. -/
theorem from_secret_key_invalid_iff (b : Bytes) (hlen : b.length = 32) :
    (from_secret_key b = .error .InvalidSeed ↔
      toNatBE b = 0 ∨ ORDER ≤ toNatBE b) ∧
    (∀ k, from_secret_key b = .ok k → k.secret_key = b) := by
  have hv : isValidScalar b = true ↔ 0 < toNatBE b ∧ toNatBE b < ORDER := by
    simp [isValidScalar, hlen]
  constructor
  · constructor
    · intro he
      unfold from_secret_key at he
      split at he
      · exact absurd he (by simp)
      · next h =>
          rw [hv] at h
          omega
    · intro hor
      unfold from_secret_key
      rw [dif_neg]
      intro hval
      rcases hv.mp hval with ⟨h1, h2⟩
      omega
  · intro k hk
    unfold from_secret_key at hk
    split at hk
    · cases hk
      rfl
    · cases hk

/-- Witness for C6 at the scalar 1: valid, so no `InvalidSeed`, and the
secret bytes round-trip. -/
theorem from_secret_key_invalid_iff_witness :
    (from_secret_key oneBytes = .error .InvalidSeed ↔
      toNatBE oneBytes = 0 ∨ ORDER ≤ toNatBE oneBytes) ∧
    (∀ k, from_secret_key oneBytes = .ok k → k.secret_key = oneBytes) :=
  from_secret_key_invalid_iff oneBytes (by decide)

/-- Claim C5: `verify` is total and returns `false`, not an error, whenever
the first 64 signature bytes fail to parse as a compact signature or the
public-key bytes fail to decode as a point. Totality itself is forced by
the `Bool` return type of the embedding, matching the source's lack of any
panicking path. -/
theorem verify_malformed_false (P : Primitives) (sig msg pub : Bytes)
    (h : P.sigFromCompactOk (sig.take 64) = false ∨ P.pubFromSliceOk pub = false) :
    verify P sig msg pub = false := by
  unfold verify internalVerify
  rcases h with h | h <;> simp [h]

/-- Witness for C5: a primitives model whose compact-signature parse always
fails makes `verify` return `false` on a concrete 65-byte pattern. -/
theorem verify_malformed_false_witness :
    verify noParseP (List.replicate 65 0) [1] (List.replicate 33 0) = false :=
  verify_malformed_false noParseP (List.replicate 65 0) [1] (List.replicate 33 0)
    (Or.inl rfl)

/-- Claim C4: signing then verifying succeeds: for any primitives
satisfying the secp256k1 round-trip contract, any keypair and any message,
`verify (sign m) m (public_key)` is `true`. -/
theorem sign_verify_roundtrip (P : Primitives) (hP : SecpRoundtrip P)
    (k : Keypair) (m : Bytes) :
    verify P (sign P k m) m (public_key P k) = true := by
  obtain ⟨hlen, hsig, hpub, hver⟩ := hP k.secret (P.blake2_256 m) k.valid
  unfold verify internalVerify sign sign_prehashed internalSign public_key
  rw [List.take_left' hlen, hsig, hpub, hver]
  simp

/-- Witness for C4: the concrete primitives `exP` satisfy the round-trip
contract, so sign-then-verify succeeds on a concrete message. -/
theorem sign_verify_roundtrip_witness :
    verify exP (sign exP kOne [1, 2, 3]) [1, 2, 3] (public_key exP kOne) = true :=
  sign_verify_roundtrip exP
    (by
      intro s d hs
      refine ⟨?_, rfl, rfl, ?_⟩
      · simp only [exP]
        simp only [List.length_take, List.length_append, List.length_replicate]
        omega
      · simp only [exP]
        simp)
    kOne [1, 2, 3]

/-- Claim C8: signing is deterministic and depends only on the secret
scalar and the message (or digest): keypairs with equal secret bytes
produce byte-identical signatures, with no other input to the signing
path. -/
theorem sign_deterministic_in_secret (P : Primitives) (k1 k2 : Keypair) (m d : Bytes)
    (h : k1.secret_key = k2.secret_key) :
    sign P k1 m = sign P k2 m ∧ sign_prehashed P k1 d = sign_prehashed P k2 d := by
  have hs : k1.secret = k2.secret := h
  unfold sign sign_prehashed internalSign
  rw [hs]
  exact ⟨rfl, rfl⟩

/-- Witness for C8 at a concrete key, message and digest. -/
theorem sign_deterministic_in_secret_witness :
    sign exP kOne [5] = sign exP kOne [5] ∧
    sign_prehashed exP kOne (List.replicate 32 7)
      = sign_prehashed exP kOne (List.replicate 32 7) :=
  sign_deterministic_in_secret exP kOne kOne [5] (List.replicate 32 7) rfl

/-- Claim C9: `sign` is exactly `sign_prehashed` of the blake2_256 digest
of the message, and `verify` recomputes the digest of the message the same
way before checking the signature. -/
theorem sign_is_prehash_of_blake (P : Primitives) (k : Keypair) (m sig pub : Bytes) :
    sign P k m = sign_prehashed P k (P.blake2_256 m) ∧
    verify P sig m pub = internalVerify P sig (P.blake2_256 m) pub :=
  ⟨rfl, rfl⟩

/-- Claim C3: a hex phrase (0x followed by 64 hex characters) makes
`from_uri` ignore the password entirely: any two passwords, or no password
at all, give the same result. -/
theorem hex_phrase_ignores_password (P : Primitives) (phrase : String) (cs : List Char)
    (hp : phrase.toList = '0' :: 'x' :: cs)
    (_hlen : cs.length = 64)
    (_hhex : ∀ c ∈ cs, (hexDigit c).isSome = true)
    (js : List DeriveJunction) (p1 p2 : String) :
    from_uri P (SecretUri.mk phrase js (some p1))
      = from_uri P (SecretUri.mk phrase js (some p2)) ∧
    from_uri P (SecretUri.mk phrase js (some p1))
      = from_uri P (SecretUri.mk phrase js none) := by
  have hr : ∀ pw : Option String, rootKey P (SecretUri.mk phrase js pw)
      = (match fromHex32 cs with
         | .ok seed => from_secret_key seed
         | .error e => .error e) := by
    intro pw
    unfold rootKey strip0x
    rw [hp]
    simp
  constructor <;>
    · unfold from_uri
      rw [hr, hr]

/-- The hex phrase used in the C3 witness. -/
def hexOnes : String := "0x1111111111111111111111111111111111111111111111111111111111111111"

/-- Witness for C3 at a concrete hex phrase and two concrete passwords. -/
theorem hex_phrase_ignores_password_witness :
    from_uri exP (SecretUri.mk hexOnes [] (some "a"))
      = from_uri exP (SecretUri.mk hexOnes [] (some "b")) ∧
    from_uri exP (SecretUri.mk hexOnes [] (some "a"))
      = from_uri exP (SecretUri.mk hexOnes [] none) :=
  hex_phrase_ignores_password exP hexOnes (List.replicate 64 '1')
    (by decide) (by decide) (by decide) [] "a" "b"

end SubxtSigner
